import Mathlib

/-!
Verification development for the investment-assistant repository.

This file gives a shallow embedding, in Lean 4, of the retrieval layer
(`src/core/retrieval.py`), the structured-extraction routines
(`src/core/interview.py`, `src/core/environment.py`, `src/assistant.py`) and the
deep-merge patcher (`src/assistant.py`), together with theorems about them.

Modelling conventions:
- Python `float` timestamps and durations are modelled as exact integers (`ℤ`);
  no claim below depends on fractional seconds or rounding.
- `json.loads` is modelled by `jsonLoads`, a strict JSON parser over the
  fragment exercised here: null/true/false, integer numbers, strings with the
  simple escapes, arrays and objects.  Fractional/exponent numbers and `\u`
  escapes are outside the modelled fragment (none of the claims' inputs use
  them).  Duplicate object keys keep the first position and the last value,
  as CPython's dict building does.
- The sha256 cache key of `SearchManager._cache_key` is modelled by the key
  tuple itself (collision-freeness of the hash).
- Caches and file contents are modelled at the map level; a stored entry is
  `some none` when the file exists but is unreadable (corrupt), matching the
  `except Exception: return None` in `_read_cache`.
-/

set_option maxRecDepth 8000

namespace Invest

/-- JSON values, as produced by `json.loads`. -/
inductive J where
  | null
  | bool (b : Bool)
  | num (n : ℤ)
  | str (s : String)
  | arr (elems : List J)
  | obj (members : List (String × J))

/-- Python truthiness of a parsed JSON value (`if not result:`). -/
def jTruthy : J → Bool
  | .null => false
  | .bool b => b
  | .num n => n != 0
  | .str s => s != ""
  | .arr xs => !xs.isEmpty
  | .obj kvs => !kvs.isEmpty

/-- Dictionary lookup (`d.get(k)` / `k in d`): first binding wins. -/
def getKey : List (String × J) → String → Option J
  | [], _ => none
  | (k', v) :: rest, k => if k' = k then some v else getKey rest k

/-- Dictionary update `d[k] = v`: existing key keeps its position, last value
wins; a new key is appended, as in CPython dicts. -/
def setKey : List (String × J) → String → J → List (String × J)
  | [], k, v => [(k, v)]
  | (k', v') :: rest, k, v =>
      if k' = k then (k, v) :: rest else (k', v') :: setKey rest k v

/-- `d.setdefault(k, v)`. -/
def setDefault (kvs : List (String × J)) (k : String) (v : J) : List (String × J) :=
  if (getKey kvs k).isSome then kvs else kvs ++ [(k, v)]

/-- The characters Python's `\s` and `str.strip()` treat as whitespace
(ASCII fragment). -/
def pyIsSpace (c : Char) : Bool :=
  c = ' ' || c = '\t' || c = '\n' || c = '\r' || c.toNat = 12 || c.toNat = 11

/-- Left brace character, `\x7b`. -/
def lbrace : Char := Char.ofNat 123

/-- Right brace character, `\x7d`. -/
def rbrace : Char := Char.ofNat 125

/-- Left bracket character. -/
def lbrack : Char := Char.ofNat 91

/-- Right bracket character. -/
def rbrack : Char := Char.ofNat 93

/-- Backtick character. -/
def btick : Char := Char.ofNat 96

/-- Drop an expected literal from the front of the character stream. -/
def dropLit : List Char → List Char → Option (List Char)
  | [], cs => some cs
  | _ :: _, [] => none
  | p :: ps, c :: cs => if c = p then dropLit ps cs else none

/-- Skip JSON whitespace (space, tab, newline, carriage return). -/
def skipWs : List Char → List Char
  | [] => []
  | c :: cs => if c = ' ' || c = '\t' || c = '\n' || c = '\r' then skipWs cs else c :: cs

/-- Parse the body of a JSON string after the opening quote (fuel-indexed so
that the definition reduces by kernel computation). -/
def parseStrAux : ℕ → List Char → List Char → Option (String × List Char)
  | 0, _, _ => none
  | _ + 1, _, [] => none
  | fuel + 1, acc, c :: rest =>
      if c = '"' then some (String.mk acc.reverse, rest)
      else if c = '\\' then
        match rest with
        | [] => none
        | e :: rest2 =>
            let dec : Option Char :=
              if e = '"' then some '"'
              else if e = '\\' then some '\\'
              else if e = '/' then some '/'
              else if e = 'b' then some (Char.ofNat 8)
              else if e = 'f' then some (Char.ofNat 12)
              else if e = 'n' then some '\n'
              else if e = 'r' then some '\r'
              else if e = 't' then some '\t'
              else none
            match dec with
            | some d => parseStrAux fuel (d :: acc) rest2
            | none => none
      else if c.toNat < 32 then none
      else parseStrAux fuel (c :: acc) rest

/-- Parse a JSON string body with enough fuel for the whole stream. -/
def parseStr (cs : List Char) : Option (String × List Char) :=
  parseStrAux (cs.length + 1) [] cs

/-- Numeric value of a digit run. -/
def digitsVal (ds : List Char) : ℤ :=
  ds.foldl (fun acc c => acc * 10 + (Int.ofNat c.toNat - 48)) 0

/-- Parse a JSON integer literal (the number fragment used by the claims:
no fraction, no exponent; leading zeros rejected as in strict JSON). -/
def parseNum (cs : List Char) : Option (J × List Char) :=
  let (sign, cs1) :=
    match cs with
    | c :: rest => if c = '-' then ((-1 : ℤ), rest) else ((1 : ℤ), cs)
    | [] => ((1 : ℤ), cs)
  let ds := cs1.takeWhile Char.isDigit
  let rest := cs1.drop ds.length
  if ds.isEmpty then none
  else if ds.length > 1 && ds.headD '0' = '0' then none
  else
    match rest with
    | c :: _ => if c = '.' || c = 'e' || c = 'E' then none else some (J.num (sign * digitsVal ds), rest)
    | [] => some (J.num (sign * digitsVal ds), rest)

mutual

/-- Parse one JSON value (fuel-indexed recursive descent). -/
def parseVal : ℕ → List Char → Option (J × List Char)
  | 0, _ => none
  | fuel + 1, cs =>
      match skipWs cs with
      | [] => none
      | c :: rest =>
          if c = 'n' then
            match dropLit ['u', 'l', 'l'] rest with
            | some rest2 => some (J.null, rest2)
            | none => none
          else if c = 't' then
            match dropLit ['r', 'u', 'e'] rest with
            | some rest2 => some (J.bool true, rest2)
            | none => none
          else if c = 'f' then
            match dropLit ['a', 'l', 's', 'e'] rest with
            | some rest2 => some (J.bool false, rest2)
            | none => none
          else if c = '"' then
            match parseStr rest with
            | some (s, rest2) => some (J.str s, rest2)
            | none => none
          else if c = lbrack then
            match skipWs rest with
            | d :: rest2 =>
                if d = rbrack then some (J.arr [], rest2)
                else parseArrItems fuel [] (d :: rest2)
            | [] => none
          else if c = lbrace then
            match skipWs rest with
            | d :: rest2 =>
                if d = rbrace then some (J.obj [], rest2)
                else parseObjItems fuel [] (d :: rest2)
            | [] => none
          else parseNum (c :: rest)

/-- Parse array elements after at least one element is known to follow. -/
def parseArrItems : ℕ → List J → List Char → Option (J × List Char)
  | 0, _, _ => none
  | fuel + 1, acc, cs =>
      match parseVal fuel cs with
      | none => none
      | some (v, rest) =>
          match skipWs rest with
          | c :: rest2 =>
              if c = ',' then parseArrItems fuel (v :: acc) rest2
              else if c = rbrack then some (J.arr (v :: acc).reverse, rest2)
              else none
          | [] => none

/-- Parse object members after at least one member is known to follow. -/
def parseObjItems : ℕ → List (String × J) → List Char → Option (J × List Char)
  | 0, _, _ => none
  | fuel + 1, acc, cs =>
      match skipWs cs with
      | c :: rest =>
          if c = '"' then
            match parseStr rest with
            | none => none
            | some (k, rest2) =>
                match skipWs rest2 with
                | d :: rest3 =>
                    if d = ':' then
                      match parseVal fuel rest3 with
                      | none => none
                      | some (v, rest4) =>
                          let acc2 := setKey acc k v
                          match skipWs rest4 with
                          | e :: rest5 =>
                              if e = ',' then parseObjItems fuel acc2 rest5
                              else if e = rbrace then some (J.obj acc2, rest5)
                              else none
                          | [] => none
                    else none
                | [] => none
          else none
      | [] => none

end

/-- Model of `json.loads` on the fragment described at the top of the file:
parse one value, then require only whitespace to remain.  `none` stands for
`json.JSONDecodeError`. -/
def jsonLoads (s : String) : Option J :=
  match parseVal (2 * s.length + 4) s.data with
  | some (v, rest) => if (skipWs rest).isEmpty then some v else none
  | none => none

/-- Python `str.strip()` (ASCII whitespace fragment). -/
def pyStrip (s : String) : String :=
  String.mk (((s.data.dropWhile pyIsSpace).reverse.dropWhile pyIsSpace).reverse)

/-- Drop a run of `\s*`. -/
def dropWsRun (cs : List Char) : List Char := cs.dropWhile pyIsSpace

/-- Drop a trailing run of `\s*`. -/
def dropTrailingWs (cs : List Char) : List Char :=
  (cs.reverse.dropWhile pyIsSpace).reverse

/-- If the stream starts with three backticks, return the rest. -/
def fenceHere : List Char → Option (List Char)
  | c1 :: c2 :: c3 :: rest =>
      if c1 = btick && c2 = btick && c3 = btick then some rest else none
  | _ => none

/-- Scan to the first triple-backtick fence; return the suffix after it. -/
def dropToFence : List Char → Option (List Char)
  | [] => none
  | c :: cs =>
      match fenceHere (c :: cs) with
      | some rest => some rest
      | none => dropToFence cs

/-- Scan to the next fence; return the content before it and the suffix after
it (the lazy `([\s\S]*?)` of the fenced-block regex stops at the first
closing fence). -/
def takeToFence : List Char → Option (List Char × List Char)
  | [] => none
  | c :: cs =>
      match fenceHere (c :: cs) with
      | some rest => some ([], rest)
      | none =>
          match takeToFence cs with
          | some (content, rest) => some (c :: content, rest)
          | none => none

/-- Drop the optional literal `json` of `(?:json)?` after the opening fence. -/
def dropJsonTag : List Char → List Char
  | 'j' :: 's' :: 'o' :: 'n' :: rest => rest
  | cs => cs

/-- One fenced-block match: group text and the suffix after the whole match. -/
def fencedOnce (cs : List Char) : Option (String × List Char) :=
  match dropToFence cs with
  | none => none
  | some afterOpen =>
      match takeToFence (dropWsRun (dropJsonTag afterOpen)) with
      | none => none
      | some (content, rest) => some (String.mk (dropTrailingWs content), rest)

/-- Model of `re.findall(r'```(?:json)?\s*([\s\S]*?)\s*```', text)`: scan
left to right, non-overlapping, group = content with surrounding `\s*`
stripped. -/
def fencedMatchesAux : ℕ → List Char → List String
  | 0, _ => []
  | fuel + 1, cs =>
      match fencedOnce cs with
      | none => []
      | some (g, rest) => g :: fencedMatchesAux fuel rest

/-- All fenced-block groups of a string. -/
def fencedMatches (s : String) : List String :=
  fencedMatchesAux (s.length + 1) s.data

/-- Model of `re.search(r'\{[\s\S]*\}', text)`: the greedy match runs from the
first left brace to the last right brace after it. -/
def braceSearch (s : String) : Option String :=
  let tail := s.data.dropWhile (fun c => !(c = lbrace))
  let kept := (tail.reverse.dropWhile (fun c => !(c = rbrace))).reverse
  if kept.isEmpty then none else some (String.mk kept)

/-- Does `pat` occur at the head of the stream? -/
def litHere : List Char → List Char → Bool
  | _, [] => true
  | [], _ :: _ => false
  | c :: cs, p :: ps => c = p && litHere cs ps

/-- Does `pat` occur anywhere in the stream? -/
def litInside : List Char → List Char → Bool
  | [], pat => pat.isEmpty
  | c :: cs, pat => litHere (c :: cs) pat || litInside cs pat

/-- Model of `re.search(r'\{[\s\S]*"judgment"[\s\S]*\}', text)` in
`EnvironmentCollector._extract_json`: the first-brace-to-last-brace span,
provided it contains the quoted key `"judgment"`. -/
def braceJudgmentSearch (s : String) : Option String :=
  match braceSearch s with
  | some sub => if litInside sub.data ('"' :: 'j' :: 'u' :: 'd' :: 'g' :: 'm' :: 'e' :: 'n' :: 't' :: ['"']) then some sub else none
  | none => none

/-- Model of `re.sub(r',(\s*[}\]])', r'\1', text)`: every comma followed by
optional whitespace and a closing brace/bracket is deleted; scanning resumes
after each whole match. -/
def stripTrailingCommasAux : ℕ → List Char → List Char
  | 0, cs => cs
  | _ + 1, [] => []
  | fuel + 1, c :: cs =>
      if c = ',' then
        let ws := cs.takeWhile pyIsSpace
        match cs.dropWhile pyIsSpace with
        | d :: rest2 =>
            if d = rbrace || d = rbrack then ws ++ d :: stripTrailingCommasAux fuel rest2
            else c :: stripTrailingCommasAux fuel cs
        | [] => c :: stripTrailingCommasAux fuel cs
      else c :: stripTrailingCommasAux fuel cs

/-- The trailing-comma cleanup pass of `InterviewManager._extract_json`. -/
def stripTrailingCommas (s : String) : String :=
  String.mk (stripTrailingCommasAux (s.length + 1) s.data)

/-- Does a parsed object carry one of the Playbook marker keys
(`core_thesis` / `market_views` / `stock_name`)? -/
def hasPlaybookKey (kvs : List (String × J)) : Bool :=
  (getKey kvs "core_thesis").isSome || (getKey kvs "market_views").isSome ||
    (getKey kvs "stock_name").isSome

/-- `InterviewManager._extract_json` (src/core/interview.py, lines 155-204):
strategy 1 scans fenced blocks newest-first and accepts dicts with a marker
key; strategy 2 parses the greedy brace span with the same marker check;
strategy 3 parses the whole response accepting any dict; strategy 4 retries
only the fenced-block candidates after the trailing-comma cleanup. -/
def interviewExtractJson (response : String) : Option J :=
  let ms := fencedMatches response
  match ms.reverse.findSome? (fun js =>
      match jsonLoads js with
      | some (J.obj kvs) => if hasPlaybookKey kvs then some (J.obj kvs) else none
      | _ => none) with
  | some v => some v
  | none =>
      let s2 : Option J :=
        match braceSearch response with
        | some sub =>
            match jsonLoads sub with
            | some (J.obj kvs) => if hasPlaybookKey kvs then some (J.obj kvs) else none
            | _ => none
        | none => none
      match s2 with
      | some v => some v
      | none =>
          let s3 : Option J :=
            match jsonLoads response with
            | some (J.obj kvs) => some (J.obj kvs)
            | _ => none
          match s3 with
          | some v => some v
          | none =>
              ms.reverse.findSome? (fun js =>
                match jsonLoads (stripTrailingCommas js) with
                | some (J.obj kvs) => some (J.obj kvs)
                | _ => none)

/-- The terminal error message of `EnvironmentCollector._extract_json`. -/
def envParseFailMsg : String := "无法解析 AI 响应为 JSON 格式，请查看原始响应"

/-- Tail of `EnvironmentCollector._extract_json` after the fenced-block
strategy: whole-response parse, then brace-span-with-judgment parse. -/
def envExtractRest (response : String) : Option J × Option String :=
  match jsonLoads response with
  | some v => (some v, none)
  | none =>
      match braceJudgmentSearch response with
      | some sub =>
          match jsonLoads sub with
          | some v => (some v, none)
          | none => (none, some envParseFailMsg)
      | none => (none, some envParseFailMsg)

/-- `EnvironmentCollector._extract_json` (src/core/environment.py, lines
390-417): first fenced block, then whole response, then the brace span that
contains `"judgment"`; any successfully parsed value is returned as-is, and
on total failure the error string is returned. -/
def envExtractJson (response : String) : Option J × Option String :=
  match (fencedMatches response).head? with
  | some c =>
      match jsonLoads c with
      | some v => (some v, none)
      | none => envExtractRest response
  | none => envExtractRest response

/-- The synthetic fallback object built by `EnvironmentCollector.assess_impact`
when the model response could not be parsed (lines 370-383). -/
def assessFallback (response timeRange : String) (parseError : Option String) :
    List (String × J) :=
  [("judgment", J.obj [("needs_deep_research", J.bool true), ("confidence", J.str "中")]),
   ("conclusion", J.obj [("reason", J.str (response.take 200)), ("action", J.str "建议进行研究")]),
   ("research_plan", J.obj
     [("trigger_reason", J.str "无法自动解析，建议人工判断"),
      ("core_questions", J.arr [J.str "需要人工确认研究问题"]),
      ("research_dimensions", J.arr [J.str "待定"]),
      ("information_sources", J.arr [J.str "待定"]),
      ("search_time_range", J.str timeRange)]),
   ("raw_response", J.str response),
   ("parse_error", match parseError with | some e => J.str e | none => J.null)]

/-- The JSON-handling tail of `EnvironmentCollector.assess_impact`
(lines 365-388), as a function of the model response: extract, fall back to
the synthetic plan when the result is missing or falsy, then attach
`_raw_response`.  `Except.error` models the `TypeError` that item assignment
would raise on a parsed non-dict value (unreachable on the fallback path). -/
def assessImpact (response timeRange : String) : Except Unit J :=
  let er := envExtractJson response
  let chosen : Option J :=
    match er.1 with
    | some v => if jTruthy v then some v else none
    | none => none
  match chosen with
  | none =>
      Except.ok (J.obj (setKey (assessFallback response timeRange er.2) "_raw_response" (J.str response)))
  | some (J.obj kvs) => Except.ok (J.obj (setKey kvs "_raw_response" (J.str response)))
  | some _ => Except.error ()

/-- Model of every `json.loads` call site in `src/assistant.py`: the module
never imports `json`, so the name lookup raises `NameError` before any
parsing happens; the surrounding `except Exception` handlers observe only the
failure.  The attempt therefore never produces a value. -/
def assistantJsonLoadsAttempt (_ : String) : Option J := none

/-- Strategy 3 of `InvestmentAssistant._extract_json`: whole-text parse,
`return None` on any exception. -/
def assistantWholeText (text : String) : Option J :=
  match assistantJsonLoadsAttempt text with
  | some (J.obj kvs) => some (J.obj kvs)
  | _ => none

/-- `InvestmentAssistant._extract_json` (src/assistant.py, lines 226-258):
empty input short-circuits; then fenced blocks newest-first, the greedy brace
span, and the whole text are attempted, each through `json.loads` — which in
this module always raises `NameError` (no `import json`). -/
def assistantExtractJson (text : String) : Option J :=
  if text = "" then none
  else
    match (fencedMatches text).reverse.findSome? (fun s =>
        match assistantJsonLoadsAttempt s with
        | some (J.obj kvs) => some (J.obj kvs)
        | _ => none) with
    | some v => some v
    | none =>
        match braceSearch text with
        | some sub =>
            match assistantJsonLoadsAttempt sub with
            | some (J.obj kvs) => some (J.obj kvs)
            | _ => assistantWholeText text
        | none => assistantWholeText text

/-- `stock_name.lower().replace(" ", "_")` (ASCII fragment). -/
def stockId (name : String) : String :=
  String.mk (name.data.map (fun c => if c = ' ' then '_' else c.toLower))

/-- The skeleton playbook of `InvestmentAssistant._direct_add_stock_playbook`
(lines 296-305). -/
def skeletonPlaybook (stockName : String) : J :=
  J.obj
    [("stock_name", J.str stockName),
     ("ticker", J.str ""),
     ("core_thesis", J.obj [("summary", J.str ""), ("key_points", J.arr []), ("market_gap", J.str "")]),
     ("validation_signals", J.arr []),
     ("invalidation_triggers", J.arr []),
     ("operation_plan", J.obj
       [("holding_period", J.str ""), ("target_price", J.null),
        ("stop_loss", J.null), ("position_size", J.str "")]),
     ("related_entities", J.arr [])]

/-- Outcome of `_direct_add_stock_playbook`: either the flow is routed to the
direct-edit path (an existing playbook was found) or a playbook is saved. -/
inductive DirectAddOutcome where
  | routedToEdit
  | saved (stockIdent : String) (data : J)

/-- `InvestmentAssistant._direct_add_stock_playbook` (lines 285-310) as a
function of the stock name, the pasted text and the stored playbook. -/
def directAddStockPlaybook (stockName raw : String) (current : Option J) :
    DirectAddOutcome :=
  let cur := current.getD (J.obj [])
  if jTruthy cur then DirectAddOutcome.routedToEdit
  else
    let data := (assistantExtractJson raw).getD (J.obj [])
    let data2 := if jTruthy data then data else skeletonPlaybook stockName
    match data2 with
    | J.obj kvs =>
        DirectAddOutcome.saved (stockId stockName) (J.obj (setDefault kvs "stock_name" (J.str stockName)))
    | v => DirectAddOutcome.saved (stockId stockName) v

mutual

/-- `InvestmentAssistant._deep_merge` (src/assistant.py, lines 260-268):
start from a copy of `base`, and for each binding of `patch` in order store
the merged value. -/
def deepMerge : List (String × J) → List (String × J) → List (String × J)
  | out, [] => out
  | out, (k, v) :: rest => deepMerge (setKey out k (mergeValue (getKey out k) v)) rest
termination_by _ patch => sizeOf patch
decreasing_by all_goals (simp_wf <;> omega)

/-- The per-key rule of `_deep_merge`: when both the existing and the incoming
value are dicts, recurse; otherwise the incoming value replaces. -/
def mergeValue : Option J → J → J
  | some (J.obj bv), J.obj pv => J.obj (deepMerge bv pv)
  | _, v => v
termination_by _ v => sizeOf v
decreasing_by all_goals (simp_wf <;> omega)

end

/-- A search result (`SearchResult` dataclass in src/core/retrieval.py). -/
structure SearchResult where
  title : String
  url : String
  snippet : String
  provider : String
  published : Option String
  score : Option ℚ
deriving DecidableEq

/-- A cache key: the tuple hashed by `SearchManager._cache_key` (the sha256
digest is modelled by the tuple itself). -/
structure Key where
  q : String
  p : String
  n : ℕ
  topic : String
  depth : String
deriving DecidableEq

/-- The decoded content of a cache file: the `ts` stamp and the result list.
A missing or falsy `ts` field is modelled by `ts = 0` (Python truthiness of
`obj.get("ts")`). -/
structure CacheObj where
  ts : ℤ
  results : List SearchResult
deriving DecidableEq

/-- The cache directory: `none` = no file for the key, `some none` = a file
that cannot be decoded (any exception in `_read_cache` yields `None`),
`some (some obj)` = a readable entry. -/
def Cache : Type := Key → Option (Option CacheObj)

/-- `SearchManager._read_cache` (lines 241-256): missing and unreadable files
give `None`; a truthy `ts` older than the TTL gives `None`; otherwise the
stored results are returned. -/
def readCache (cache : Cache) (now ttl : ℤ) (k : Key) : Option (List SearchResult) :=
  match cache k with
  | none => none
  | some none => none
  | some (some obj) =>
      if obj.ts ≠ 0 ∧ now - obj.ts > ttl then none else some obj.results

/-- The map-level effect of `SearchManager._write_cache`: the key now holds a
readable entry stamped with the current time. -/
def writeCacheUpdate (cache : Cache) (k : Key) (ts : ℤ) (results : List SearchResult) : Cache :=
  fun k' => if k' = k then some (some ⟨ts, results⟩) else cache k'

/-- An abstract provider for `SearchManager.search`: its name, the result of
`is_available()`, the outcome of `search()` for the query at hand
(`Except.error` = the call raises), and the wall-clock seconds it consumes. -/
structure Provider where
  name : String
  available : Bool
  run : Except Unit (List SearchResult)
  duration : ℤ

/-- Observable actions of one `search()` call, in order. -/
inductive Event where
  | availCheck (providerName : String)
  | providerCall (providerName : String)
  | cacheWrite (key : Key) (results : List SearchResult)
deriving DecidableEq

/-- The mutable state of the provider loop in `SearchManager.search`. -/
structure LoopState where
  cache : Cache
  merged : List SearchResult
  seen : List String
  elapsed : ℤ

/-- The dedup key of a result inside the merge loop: `(r.url or "").strip()`. -/
def urlKey (r : SearchResult) : String := pyStrip r.url

/-- The inner merge loop of `SearchManager.search` (lines 307-314): append
results whose stripped url is non-empty and unseen, and stop as soon as
`max_results` results have accumulated. -/
def dedupeMerge (n : ℕ) : List SearchResult → List SearchResult → List String →
    List SearchResult × List String
  | [], merged, seen => (merged, seen)
  | r :: rs, merged, seen =>
      let u := urlKey r
      if u = "" ∨ u ∈ seen then dedupeMerge n rs merged seen
      else if n ≤ merged.length + 1 then (merged ++ [r], u :: seen)
      else dedupeMerge n rs (merged ++ [r]) (u :: seen)

/-- One iteration of the provider loop of `SearchManager.search` (lines
288-316), minus the loop-level timeout/stop checks: availability check,
per-provider cache probe, provider call with swallowed exceptions,
per-provider cache write for non-empty results, merge. -/
def providerStep (now ttl : ℤ) (q : String) (n : ℕ) (topic depth : String)
    (st : LoopState) (p : Provider) : LoopState × List Event :=
  if p.available = false then (st, [Event.availCheck p.name])
  else
    let ck : Key := ⟨q, p.name, n, topic, depth⟩
    match readCache st.cache (now + st.elapsed) ttl ck with
    | some res =>
        let ms := dedupeMerge n res st.merged st.seen
        ({ st with merged := ms.1, seen := ms.2 }, [Event.availCheck p.name])
    | none =>
        match p.run with
        | Except.error _ =>
            ({ st with elapsed := st.elapsed + p.duration },
              [Event.availCheck p.name, Event.providerCall p.name])
        | Except.ok res =>
            let c2 := if res = [] then st.cache
              else writeCacheUpdate st.cache ck (now + st.elapsed + p.duration) res
            let ev2 : List Event := if res = [] then [] else [Event.cacheWrite ck res]
            let ms := dedupeMerge n res st.merged st.seen
            ({ cache := c2, merged := ms.1, seen := ms.2, elapsed := st.elapsed + p.duration },
              [Event.availCheck p.name, Event.providerCall p.name] ++ ev2)

/-- The provider loop of `SearchManager.search`: before each provider the
elapsed time is checked against the hard timeout (`break`), and after each
provider the accumulated count is checked against `max_results` (`break`). -/
def searchLoop (now ttl timeout : ℤ) (q : String) (n : ℕ) (topic depth : String) :
    List Provider → LoopState → LoopState × List Event
  | [], st => (st, [])
  | p :: ps, st =>
      if timeout < st.elapsed then (st, [])
      else
        let se := providerStep now ttl q n topic depth st p
        if n ≤ se.1.merged.length then se
        else
          let se2 := searchLoop now ttl timeout q n topic depth ps se.1
          (se2.1, se.2 ++ se2.2)

/-- `SearchManager.search` (lines 267-319): union-cache probe, provider loop,
union-cache write.  Returns the result list, the events in order, and the
final cache. -/
def search (providers : List Provider) (cache : Cache) (now ttl timeout : ℤ)
    (q : String) (n : ℕ) (topic depth : String) :
    List SearchResult × List Event × Cache :=
  let uk : Key := ⟨q, "union", n, topic, depth⟩
  match readCache cache now ttl uk with
  | some l => (l, [], cache)
  | none =>
      let se := searchLoop now ttl timeout q n topic depth providers ⟨cache, [], [], 0⟩
      (se.1.merged, se.2 ++ [Event.cacheWrite uk se.1.merged],
        writeCacheUpdate se.1.cache uk (now + se.1.elapsed) se.1.merged)

/-- File-system operations. -/
inductive FileOp where
  | writeText (path : String) (ts : ℤ) (results : List SearchResult)
  | renameFile (src dst : String)
deriving DecidableEq

/-- The cache file path `SEARCH_CACHE_DIR / f"{key}.json"` (the sha256 hex
digest is modelled by a canonical rendering of the key tuple). -/
def cachePath (k : Key) : String :=
  "~/.investment-assistant/cache/search/" ++ k.q ++ "|" ++ k.p ++ "|" ++
    toString k.n ++ "|" ++ k.topic ++ "|" ++ k.depth ++ ".json"

/-- The file-operation trace of `SearchManager._write_cache` (lines 258-265):
a single `Path.write_text` directly on the final cache path. -/
def writeCacheOps (k : Key) (now : ℤ) (results : List SearchResult) : List FileOp :=
  [FileOp.writeText (cachePath k) now results]

/-- Is an operation a rename/commit step? -/
def isRenameOp : FileOp → Bool
  | FileOp.renameFile _ _ => true
  | _ => false

/-- A cache with no entries. -/
def emptyCache : Cache := fun _ => none

/-- Concrete result fixture. -/
def resA : SearchResult := ⟨"A", "https://a.example/1", "sa", "tavily", none, none⟩

/-- Concrete result fixture sharing `resA`'s url. -/
def resADup : SearchResult := ⟨"A again", "https://a.example/1", "sb", "openclaw:web_search", none, none⟩

/-- Concrete result fixture with a distinct url. -/
def resB : SearchResult := ⟨"B", "https://b.example/2", "sc", "openclaw:web_search", none, none⟩

/-- A cache holding a fresh union entry for query `q` with `n = 5`. -/
def unionHitCache : Cache :=
  fun k => if k = ⟨"q", "union", 5, "news", "basic"⟩ then some (some ⟨50, [resA]⟩) else none

/-- A cache holding a stale union entry (written at time 1). -/
def expiredUnionCache : Cache :=
  fun k => if k = ⟨"q", "union", 5, "news", "basic"⟩ then some (some ⟨1, [resA]⟩) else none

/-- A provider returning three results, one a duplicate url. -/
def provAB : Provider := ⟨"tavily", true, Except.ok [resA, resADup, resB], 1⟩

/-- A provider returning an empty result list. -/
def provEmptyRes : Provider := ⟨"tavily", true, Except.ok [], 0⟩

/-- A provider whose `search` raises. -/
def provFail : Provider := ⟨"tavily", true, Except.error (), 0⟩

/-- A provider whose `is_available()` is false. -/
def provUnavailable : Provider := ⟨"tavily", false, Except.ok [], 0⟩

/-- Does an event write the per-provider cache entry of the `tavily`
provider? -/
def isTavilyCacheWrite : Event → Bool
  | Event.cacheWrite k _ => k.p = "tavily"
  | _ => false

section Theorems

/-- `findSome?` of a constantly-`none` function finds nothing. -/
theorem findSome?_const_none {α β : Type} (l : List α) :
    l.findSome? (fun _ => (none : Option β)) = none := by
  induction l with
  | nil => rfl
  | cons a l ih => simpa [List.findSome?] using ih

/-- C2.  If the union cache holds a fresh entry for the call parameters,
`SearchManager.search` returns exactly that cached list, produces no events
(no `is_available` check, no provider call, no cache write), and leaves the
cache untouched. -/
theorem search_union_cache_hit (providers : List Provider) (cache : Cache)
    (now ttl timeout : ℤ) (q : String) (n : ℕ) (topic depth : String)
    (l : List SearchResult)
    (h : readCache cache now ttl ⟨q, "union", n, topic, depth⟩ = some l) :
    search providers cache now ttl timeout q n topic depth = (l, [], cache) := by
  simp [search, h]

/-- Witness for `search_union_cache_hit` at a concrete fresh cache entry. -/
theorem search_union_cache_hit_witness :
    search [provAB] unionHitCache 60 100 25 "q" 5 "news" "basic" = ([resA], [], unionHitCache) :=
  search_union_cache_hit [provAB] unionHitCache 60 100 25 "q" 5 "news" "basic" [resA] (by rfl)

/-- C3 counterexample.  On the spec's own input — trailing commas, no code
fence — `InterviewManager._extract_json` returns `None`: the cleanup pass
iterates only over the (empty) list of fenced-block candidates, so the claim
that extraction succeeds after cleanup is false. -/
theorem interview_extract_unfenced_counterexample :
    interviewExtractJson "\x7b\"a\":1,\"b\":[1,2,],\x7d" = none := by rfl

/-- C3 amended.  The cleanup pass re-attempts only strategy 1's fenced-block
candidates: the unfenced trailing-comma input fails in both extractors
(`environment.py`'s has no cleanup pass at all), while the same JSON inside a
```json fence succeeds after cleanup, and the cleanup itself strips the
trailing commas. -/
theorem interview_extract_cleanup_fenced_only :
    interviewExtractJson "\x7b\"a\":1,\"b\":[1,2,],\x7d" = none ∧
    envExtractJson "\x7b\"a\":1,\"b\":[1,2,],\x7d" = (none, some envParseFailMsg) ∧
    interviewExtractJson "```json\n\x7b\"a\":1,\"b\":[1,2,],\x7d\n```" =
      some (J.obj [("a", J.num 1), ("b", J.arr [J.num 1, J.num 2])]) ∧
    stripTrailingCommas "\x7b\"a\":1,\"b\":[1,2,],\x7d" = "\x7b\"a\":1,\"b\":[1,2]\x7d" :=
  ⟨by rfl, by rfl, by rfl, by rfl⟩

/-- C10.  `SearchManager._write_cache` performs a single direct write to the
final cache path: there is no temporary-file write and no rename/commit step,
contradicting the atomic-write requirement. -/
theorem write_cache_single_direct_write (k : Key) (now : ℤ) (results : List SearchResult) :
    writeCacheOps k now results = [FileOp.writeText (cachePath k) now results] ∧
    (writeCacheOps k now results).filter isRenameOp = [] :=
  ⟨rfl, rfl⟩

/-- C5.  `assistant.py` never imports `json`, so every `json.loads` call in
`InvestmentAssistant._extract_json` raises `NameError`, which the
`except Exception` handlers swallow: the extractor returns `None` on every
input, and `_direct_add_stock_playbook` (for a stock with no stored playbook)
therefore always saves the skeleton playbook, whatever the user pasted. -/
theorem assistant_extract_always_none :
    (∀ text, assistantExtractJson text = none) ∧
    (∀ stockName raw, directAddStockPlaybook stockName raw none =
      DirectAddOutcome.saved (stockId stockName) (skeletonPlaybook stockName)) := by
  have h1 : ∀ text, assistantExtractJson text = none := by
    intro text
    by_cases h : text = ""
    · simp [assistantExtractJson, h]
    · simp only [assistantExtractJson, h, if_false, assistantJsonLoadsAttempt,
        assistantWholeText]
      rw [findSome?_const_none]
      cases braceSearch text <;> simp
  refine ⟨h1, fun stockName raw => ?_⟩
  simp [directAddStockPlaybook, h1, jTruthy, skeletonPlaybook, setDefault, getKey]

/-- C6.  Whenever the model response yields no parseable JSON, `assess_impact`
does not throw: it returns the synthetic fallback object, whose
`judgment.needs_deep_research` is true, whose `research_plan` flags manual
review, and which carries the parse error and the raw response. -/
theorem assess_impact_unparseable_fallback (response timeRange : String)
    (h : (envExtractJson response).1 = none) :
    ∃ kvs, assessImpact response timeRange = Except.ok (J.obj kvs) ∧
      getKey kvs "judgment" =
        some (J.obj [("needs_deep_research", J.bool true), ("confidence", J.str "中")]) ∧
      (∃ pl, getKey kvs "research_plan" = some (J.obj pl) ∧
        getKey pl "trigger_reason" = some (J.str "无法自动解析，建议人工判断")) ∧
      getKey kvs "raw_response" = some (J.str response) ∧
      getKey kvs "parse_error" =
        some (match (envExtractJson response).2 with | some e => J.str e | none => J.null) ∧
      getKey kvs "_raw_response" = some (J.str response) := by
  refine ⟨setKey (assessFallback response timeRange (envExtractJson response).2)
    "_raw_response" (J.str response), ?_, ?_, ?_, ?_, ?_, ?_⟩
  · simp [assessImpact, h]
  · simp [assessFallback, setKey, getKey]
  · exact ⟨[("trigger_reason", J.str "无法自动解析，建议人工判断"),
      ("core_questions", J.arr [J.str "需要人工确认研究问题"]),
      ("research_dimensions", J.arr [J.str "待定"]),
      ("information_sources", J.arr [J.str "待定"]),
      ("search_time_range", J.str timeRange)],
      by simp [assessFallback, setKey, getKey], by simp [getKey]⟩
  · simp [assessFallback, setKey, getKey]
  · simp [assessFallback, setKey, getKey]
  · simp [assessFallback, setKey, getKey]

/-- Witness for `assess_impact_unparseable_fallback` on a concrete
unparseable response. -/
theorem assess_impact_unparseable_fallback_witness :
    (envExtractJson "no json here at all").1 = none ∧
    ∃ kvs, assessImpact "no json here at all" "近一周" = Except.ok (J.obj kvs) ∧
      getKey kvs "judgment" =
        some (J.obj [("needs_deep_research", J.bool true), ("confidence", J.str "中")]) ∧
      (∃ pl, getKey kvs "research_plan" = some (J.obj pl) ∧
        getKey pl "trigger_reason" = some (J.str "无法自动解析，建议人工判断")) ∧
      getKey kvs "raw_response" = some (J.str "no json here at all") ∧
      getKey kvs "parse_error" =
        some (match (envExtractJson "no json here at all").2 with
              | some e => J.str e | none => J.null) ∧
      getKey kvs "_raw_response" = some (J.str "no json here at all") :=
  ⟨by rfl, assess_impact_unparseable_fallback "no json here at all" "近一周" (by rfl)⟩

/-- Looking a key up after `setKey`. -/
theorem getKey_setKey (out : List (String × J)) (k : String) (v : J) (k' : String) :
    getKey (setKey out k v) k' = if k = k' then some v else getKey out k' := by
  induction out with
  | nil => simp [setKey, getKey]
  | cons hd tl ih =>
      obtain ⟨k0, v0⟩ := hd
      by_cases h0 : k0 = k
      · subst h0
        by_cases h1 : k0 = k' <;> simp [setKey, getKey, h1]
      · by_cases h1 : k0 = k' <;> by_cases h2 : k = k' <;>
          simp_all [setKey, getKey]

/-- `deepMerge` leaves keys outside the patch untouched. -/
theorem deepMerge_getKey_notin (patch : List (String × J)) :
    ∀ (base : List (String × J)) (k : String), k ∉ patch.map Prod.fst →
      getKey (deepMerge base patch) k = getKey base k := by
  induction patch with
  | nil => intro base k _; simp [deepMerge]
  | cons hd tl ih =>
      obtain ⟨k1, v1⟩ := hd
      intro base k hk
      simp only [List.map_cons, List.mem_cons, not_or] at hk
      rw [show deepMerge base ((k1, v1) :: tl) =
        deepMerge (setKey base k1 (mergeValue (getKey base k1) v1)) tl from by
          simp [deepMerge]]
      rw [ih _ k hk.2, getKey_setKey]
      exact if_neg (fun h => hk.1 h.symm)

/-- The key-by-key characterisation of `_deep_merge`: each key of the patch
is stored via `mergeValue`, every other key keeps its base value. -/
theorem deepMerge_getKey (patch : List (String × J)) :
    ∀ (base : List (String × J)) (k : String), (patch.map Prod.fst).Nodup →
      getKey (deepMerge base patch) k =
        (match getKey patch k with
         | some v => some (mergeValue (getKey base k) v)
         | none => getKey base k) := by
  induction patch with
  | nil => intro base k _; simp [deepMerge, getKey]
  | cons hd tl ih =>
      obtain ⟨k1, v1⟩ := hd
      intro base k hnd
      simp only [List.map_cons, List.nodup_cons] at hnd
      rw [show deepMerge base ((k1, v1) :: tl) =
        deepMerge (setKey base k1 (mergeValue (getKey base k1) v1)) tl from by
          simp [deepMerge]]
      by_cases hk : k1 = k
      · subst hk
        rw [deepMerge_getKey_notin tl _ k1 hnd.1, getKey_setKey]
        simp [getKey]
      · rw [ih _ k hnd.2]
        simp only [getKey, hk, if_false]
        cases getKey tl k <;> simp [getKey_setKey, hk]

/-- C4.  `_deep_merge` merges dict values recursively, replaces all other
values wholesale, keeps base keys absent from the patch, and satisfies the
spec's two worked examples. -/
theorem deep_merge_spec :
    (∀ (base patch : List (String × J)) (k : String), (patch.map Prod.fst).Nodup →
      getKey (deepMerge base patch) k =
        (match getKey patch k with
         | some v => some (mergeValue (getKey base k) v)
         | none => getKey base k)) ∧
    (∀ (b : Option J) (v : J), mergeValue b v = v ∨
      ∃ bv pv, b = some (J.obj bv) ∧ v = J.obj pv ∧ mergeValue b v = J.obj (deepMerge bv pv)) ∧
    deepMerge [("a", J.obj [("b", J.num 1)])] [("a", J.obj [("c", J.num 2)])] =
      [("a", J.obj [("b", J.num 1), ("c", J.num 2)])] ∧
    deepMerge [("a", J.arr [J.num 1, J.num 2])] [("a", J.arr [J.num 3])] =
      [("a", J.arr [J.num 3])] := by
  refine ⟨fun base patch k h => deepMerge_getKey patch base k h, ?_, ?_, ?_⟩
  · intro b v
    match b, v with
    | some (J.obj bv), J.obj pv => exact Or.inr ⟨bv, pv, rfl, rfl, by simp [mergeValue]⟩
    | none, v => left; simp [mergeValue]
    | some J.null, v => left; simp [mergeValue]
    | some (J.bool b), v => left; simp [mergeValue]
    | some (J.num n), v => left; simp [mergeValue]
    | some (J.str s), v => left; simp [mergeValue]
    | some (J.arr xs), v => left; simp [mergeValue]
    | some (J.obj bv), J.null => left; simp [mergeValue]
    | some (J.obj bv), J.bool c => left; simp [mergeValue]
    | some (J.obj bv), J.num n => left; simp [mergeValue]
    | some (J.obj bv), J.str s => left; simp [mergeValue]
    | some (J.obj bv), J.arr xs => left; simp [mergeValue]
  · simp [deepMerge, mergeValue, getKey, setKey]
  · simp [deepMerge, mergeValue, getKey, setKey]

/-- Witness for `deep_merge_spec` at a concrete patch with distinct keys. -/
theorem deep_merge_spec_witness :
    (([("x", J.num 5)].map (Prod.fst (α := String) (β := J))).Nodup) ∧
    getKey (deepMerge [("y", J.num 7)] [("x", J.num 5)]) "x" =
      (match getKey [("x", J.num 5)] "x" with
       | some v => some (mergeValue (getKey [("y", J.num 7)] "x") v)
       | none => getKey [("y", J.num 7)] "x") :=
  ⟨by simp, deep_merge_spec.1 [("y", J.num 7)] [("x", J.num 5)] "x" (by simp)⟩

/-- Invariants of the inner merge loop: the accumulated urls stay distinct
and recorded in `seen`, and the accumulator never exceeds `max_results` when
it had room on entry. -/
theorem dedupeMerge_inv (n : ℕ) (rs : List SearchResult) :
    ∀ (merged : List SearchResult) (seen : List String),
      (merged.map urlKey).Nodup → (∀ r ∈ merged, urlKey r ∈ seen) →
      ((dedupeMerge n rs merged seen).1.map urlKey).Nodup ∧
      (∀ r ∈ (dedupeMerge n rs merged seen).1, urlKey r ∈ (dedupeMerge n rs merged seen).2) ∧
      (merged.length < n → (dedupeMerge n rs merged seen).1.length ≤ n) := by
  induction rs with
  | nil =>
      intro merged seen h1 h2
      exact ⟨h1, h2, fun h => Nat.le_of_lt h⟩
  | cons r rs ih =>
      intro merged seen h1 h2
      by_cases hu : urlKey r = "" ∨ urlKey r ∈ seen
      · rw [show dedupeMerge n (r :: rs) merged seen = dedupeMerge n rs merged seen from by
          simp [dedupeMerge, hu]]
        exact ih merged seen h1 h2
      · push_neg at hu
        obtain ⟨hne, hnotseen⟩ := hu
        have hnotmem : urlKey r ∉ merged.map urlKey := by
          intro hmem
          obtain ⟨x, hx, hxe⟩ := List.mem_map.1 hmem
          exact hnotseen (hxe ▸ h2 x hx)
        have h1' : ((merged ++ [r]).map urlKey).Nodup := by
          rw [List.map_append]
          refine List.nodup_append.2 ⟨h1, by simp, ?_⟩
          intro a ha hb
          simp only [List.map_cons, List.map_nil, List.mem_singleton] at hb
          exact hnotmem (hb ▸ ha)
        have h2' : ∀ x ∈ merged ++ [r], urlKey x ∈ urlKey r :: seen := by
          intro x hx
          rcases List.mem_append.1 hx with hx | hx
          · exact List.mem_cons_of_mem _ (h2 x hx)
          · simp only [List.mem_singleton] at hx
            subst hx
            exact List.mem_cons_self _ _
        by_cases hlen : n ≤ merged.length + 1
        · rw [show dedupeMerge n (r :: rs) merged seen = (merged ++ [r], urlKey r :: seen) from by
            simp [dedupeMerge, hne, hnotseen, hlen]]
          refine ⟨h1', h2', fun h => ?_⟩
          simp only [List.length_append, List.length_singleton]
          omega
        · rw [show dedupeMerge n (r :: rs) merged seen =
              dedupeMerge n rs (merged ++ [r]) (urlKey r :: seen) from by
            simp [dedupeMerge, hne, hnotseen, hlen]]
          have hrec := ih (merged ++ [r]) (urlKey r :: seen) h1' h2'
          refine ⟨hrec.1, hrec.2.1, fun _ => hrec.2.2 ?_⟩
          simp only [List.length_append, List.length_singleton]
          omega

/-- One provider iteration preserves the merge invariants. -/
theorem providerStep_inv (now ttl : ℤ) (q : String) (n : ℕ) (topic depth : String)
    (st : LoopState) (p : Provider)
    (h1 : (st.merged.map urlKey).Nodup) (h2 : ∀ r ∈ st.merged, urlKey r ∈ st.seen)
    (hlen : st.merged.length < n) :
    (((providerStep now ttl q n topic depth st p).1.merged.map urlKey).Nodup ∧
      ∀ r ∈ (providerStep now ttl q n topic depth st p).1.merged,
        urlKey r ∈ (providerStep now ttl q n topic depth st p).1.seen) ∧
    (providerStep now ttl q n topic depth st p).1.merged.length ≤ n := by
  by_cases hav : p.available = false
  · simp only [providerStep, hav, if_true, eq_self_iff_true]
    exact ⟨⟨h1, h2⟩, Nat.le_of_lt hlen⟩
  · rcases hrc : readCache st.cache (now + st.elapsed) ttl ⟨q, p.name, n, topic, depth⟩ with _ | res
    · rcases hrun : p.run with e | res
      · simp only [providerStep, hav, if_false, hrc, hrun]
        exact ⟨⟨h1, h2⟩, Nat.le_of_lt hlen⟩
      · have hded := dedupeMerge_inv n res st.merged st.seen h1 h2
        simp only [providerStep, hav, if_false, hrc, hrun]
        exact ⟨⟨hded.1, hded.2.1⟩, hded.2.2 hlen⟩
    · have hded := dedupeMerge_inv n res st.merged st.seen h1 h2
      simp only [providerStep, hav, if_false, hrc]
      exact ⟨⟨hded.1, hded.2.1⟩, hded.2.2 hlen⟩

/-- The provider loop preserves the merge invariants. -/
theorem searchLoop_inv (now ttl timeout : ℤ) (q : String) (n : ℕ) (topic depth : String) :
    ∀ (ps : List Provider) (st : LoopState),
      (st.merged.map urlKey).Nodup → (∀ r ∈ st.merged, urlKey r ∈ st.seen) →
      st.merged.length < n →
      (((searchLoop now ttl timeout q n topic depth ps st).1.merged.map urlKey).Nodup ∧
        (searchLoop now ttl timeout q n topic depth ps st).1.merged.length ≤ n) := by
  intro ps
  induction ps with
  | nil =>
      intro st h1 h2 hlen
      exact ⟨h1, Nat.le_of_lt hlen⟩
  | cons p ps ih =>
      intro st h1 h2 hlen
      by_cases ht : timeout < st.elapsed
      · rw [show searchLoop now ttl timeout q n topic depth (p :: ps) st = (st, []) from by
          simp [searchLoop, ht]]
        exact ⟨h1, Nat.le_of_lt hlen⟩
      · have hstep := providerStep_inv now ttl q n topic depth st p h1 h2 hlen
        by_cases hfull : n ≤ (providerStep now ttl q n topic depth st p).1.merged.length
        · rw [show searchLoop now ttl timeout q n topic depth (p :: ps) st =
              providerStep now ttl q n topic depth st p from by
            simp [searchLoop, ht, hfull]]
          exact ⟨hstep.1.1, hstep.2⟩
        · rw [show searchLoop now ttl timeout q n topic depth (p :: ps) st =
              ((searchLoop now ttl timeout q n topic depth ps
                  (providerStep now ttl q n topic depth st p).1).1,
                (providerStep now ttl q n topic depth st p).2 ++
                (searchLoop now ttl timeout q n topic depth ps
                  (providerStep now ttl q n topic depth st p).1).2) from by
            simp [searchLoop, ht, hfull]]
          exact ih (providerStep now ttl q n topic depth st p).1 hstep.1.1 hstep.1.2
            (Nat.not_le.1 hfull)

/-- C1.  A `search` call that is not a union-cache hit returns a merged list
in which no two elements share a `url`, and of length at most `max_results`. -/
theorem search_merged_urls_distinct (providers : List Provider) (cache : Cache)
    (now ttl timeout : ℤ) (q : String) (n : ℕ) (topic depth : String)
    (hmiss : readCache cache now ttl ⟨q, "union", n, topic, depth⟩ = none)
    (hn : 1 ≤ n) :
    (search providers cache now ttl timeout q n topic depth).1.Pairwise
      (fun a b => a.url ≠ b.url) ∧
    (search providers cache now ttl timeout q n topic depth).1.length ≤ n := by
  have hloop := searchLoop_inv now ttl timeout q n topic depth providers
    ⟨cache, [], [], 0⟩ (by simp) (by simp) (by simpa using hn)
  rw [show (search providers cache now ttl timeout q n topic depth).1 =
      (searchLoop now ttl timeout q n topic depth providers ⟨cache, [], [], 0⟩).1.merged from by
    simp [search, hmiss]]
  refine ⟨?_, hloop.2⟩
  have hpw := List.pairwise_map.1 hloop.1
  exact hpw.imp (fun h hc => h (by simp [urlKey, hc]))

/-- Witness for `search_merged_urls_distinct`: one provider returning a
duplicate url, `max_results = 2`. -/
theorem search_merged_urls_distinct_witness :
    readCache emptyCache 0 100 ⟨"q", "union", 2, "news", "basic"⟩ = none ∧
    ((search [provAB] emptyCache 0 100 25 "q" 2 "news" "basic").1.Pairwise
        (fun a b => a.url ≠ b.url) ∧
      (search [provAB] emptyCache 0 100 25 "q" 2 "news" "basic").1.length ≤ 2) :=
  ⟨rfl, search_merged_urls_distinct [provAB] emptyCache 0 100 25 "q" 2 "news" "basic" rfl
    (by decide)⟩

/-- If every provider is unavailable, the loop leaves the state unchanged. -/
theorem searchLoop_all_unavailable (now ttl timeout : ℤ) (q : String) (n : ℕ)
    (topic depth : String) :
    ∀ (ps : List Provider) (st : LoopState), (∀ p ∈ ps, p.available = false) →
      (searchLoop now ttl timeout q n topic depth ps st).1 = st := by
  intro ps
  induction ps with
  | nil => intro st _; rfl
  | cons p ps ih =>
      intro st h
      have hp : p.available = false := h p (List.mem_cons_self p ps)
      by_cases ht : timeout < st.elapsed
      · simp [searchLoop, ht]
      · have hstep : providerStep now ttl q n topic depth st p =
            (st, [Event.availCheck p.name]) := by
          simp [providerStep, hp]
        by_cases hfull : n ≤ st.merged.length
        · simp [searchLoop, ht, hstep, hfull]
        · simp [searchLoop, ht, hstep, hfull,
            ih st (fun x hx => h x (List.mem_cons_of_mem p hx))]

/-- C7.  `search` never propagates a provider failure: with no available
provider (and no cached union entry) it returns `[]`, and a failing provider
contributes zero results while the loop continues over the remaining
providers with the same outcome. -/
theorem search_isolates_provider_failure (now ttl : ℤ) (q : String) (n : ℕ)
    (topic depth : String) :
    (∀ (providers : List Provider) (cache : Cache) (timeout : ℤ),
      (∀ p ∈ providers, p.available = false) →
      readCache cache now ttl ⟨q, "union", n, topic, depth⟩ = none →
      (search providers cache now ttl timeout q n topic depth).1 = []) ∧
    (∀ (timeout : ℤ) (bad : Provider) (ps : List Provider) (st : LoopState),
      bad.available = true →
      st.cache ⟨q, bad.name, n, topic, depth⟩ = none →
      bad.run = Except.error () → bad.duration = 0 → st.merged.length < n →
      (searchLoop now ttl timeout q n topic depth (bad :: ps) st).1.merged =
        (searchLoop now ttl timeout q n topic depth ps st).1.merged) := by
  constructor
  · intro providers cache timeout hunav hmiss
    rw [show (search providers cache now ttl timeout q n topic depth).1 =
        (searchLoop now ttl timeout q n topic depth providers ⟨cache, [], [], 0⟩).1.merged from by
      simp [search, hmiss]]
    rw [searchLoop_all_unavailable now ttl timeout q n topic depth providers
      ⟨cache, [], [], 0⟩ hunav]
  · intro timeout bad ps st hav hck hrun hdur hlen
    by_cases ht : timeout < st.elapsed
    · cases ps <;> simp [searchLoop, ht]
    · have hstep : providerStep now ttl q n topic depth st bad =
          (st, [Event.availCheck bad.name, Event.providerCall bad.name]) := by
        simp [providerStep, hav, readCache, hck, hrun, hdur]
      simp [searchLoop, ht, hstep, Nat.not_le.2 hlen]

/-- Witness for `search_isolates_provider_failure`: an unavailable provider
yields `[]`, and a raising provider in front of a healthy one changes
nothing about the merged output. -/
theorem search_isolates_provider_failure_witness :
    (search [provUnavailable] emptyCache 0 100 25 "q" 5 "news" "basic").1 = [] ∧
    (searchLoop 0 100 25 "q" 5 "news" "basic" [provFail, provAB]
        ⟨emptyCache, [], [], 0⟩).1.merged =
      (searchLoop 0 100 25 "q" 5 "news" "basic" [provAB] ⟨emptyCache, [], [], 0⟩).1.merged :=
  ⟨(search_isolates_provider_failure 0 100 "q" 5 "news" "basic").1 [provUnavailable]
      emptyCache 25 (by decide) rfl,
    (search_isolates_provider_failure 0 100 "q" 5 "news" "basic").2 25 provFail [provAB]
      ⟨emptyCache, [], [], 0⟩ rfl rfl rfl rfl (by decide)⟩

/-- C8.  An entry whose truthy timestamp is older than the TTL is read as
absent, and a subsequent `search` with the same parameters calls the
providers again instead of serving it. -/
theorem expired_cache_entry_absent (cache : Cache) (now ttl : ℤ) (q : String)
    (n : ℕ) (topic depth : String) (obj : CacheObj)
    (hentry : cache ⟨q, "union", n, topic, depth⟩ = some (some obj))
    (hts : obj.ts ≠ 0) (hexp : now - obj.ts > ttl) :
    readCache cache now ttl ⟨q, "union", n, topic, depth⟩ = none ∧
    (∀ (p : Provider) (ps : List Provider) (timeout : ℤ), 0 ≤ timeout →
      p.available = true → cache ⟨q, p.name, n, topic, depth⟩ = none →
      Event.providerCall p.name ∈
        (search (p :: ps) cache now ttl timeout q n topic depth).2.1) := by
  have h1 : readCache cache now ttl ⟨q, "union", n, topic, depth⟩ = none := by
    simp [readCache, hentry, hts, hexp]
  refine ⟨h1, ?_⟩
  intro p ps timeout hto hav hck
  have ht : ¬ timeout < (0 : ℤ) := by omega
  have hrcp : readCache cache now ttl ⟨q, p.name, n, topic, depth⟩ = none := by
    simp [readCache, hck]
  rcases hrun : p.run with e | res <;>
    · simp only [search, h1, searchLoop, ht, if_false, providerStep, hav,
        Bool.true_eq_false, add_zero, hrcp, hrun]
      split <;> simp

/-- Witness for `expired_cache_entry_absent`: a union entry written at time 1
read at time 1000 with a 10-second TTL. -/
theorem expired_cache_entry_absent_witness :
    readCache expiredUnionCache 1000 10 ⟨"q", "union", 5, "news", "basic"⟩ = none ∧
    Event.providerCall "tavily" ∈
      (search [provAB] expiredUnionCache 1000 10 25 "q" 5 "news" "basic").2.1 :=
  ⟨(expired_cache_entry_absent expiredUnionCache 1000 10 "q" 5 "news" "basic"
      ⟨1, [resA]⟩ rfl (by decide) (by decide)).1,
    (expired_cache_entry_absent expiredUnionCache 1000 10 "q" 5 "news" "basic"
      ⟨1, [resA]⟩ rfl (by decide) (by decide)).2 provAB [] 25 (by decide) rfl rfl⟩

/-- C9 counterexample.  A provider that is called and returns an empty list
gets no per-provider cache entry — neither a write event nor a stored entry —
although the spec claims every provider actually called is persisted. -/
theorem search_empty_result_not_persisted :
    Event.providerCall "tavily" ∈
      (search [provEmptyRes] emptyCache 0 100 25 "q" 5 "news" "basic").2.1 ∧
    ((search [provEmptyRes] emptyCache 0 100 25 "q" 5 "news" "basic").2.1.filter
        isTavilyCacheWrite) = [] ∧
    (search [provEmptyRes] emptyCache 0 100 25 "q" 5 "news" "basic").2.2
      ⟨"q", "tavily", 5, "news", "basic"⟩ = none := by
  refine ⟨by decide, by decide, by decide⟩

/-- C9 amended.  A per-provider cache entry is persisted exactly for the
providers actually called that returned a non-empty list, and the merged list
is always persisted as the union entry (even when empty). -/
theorem provider_cache_persistence (now ttl : ℤ) (q : String) (n : ℕ)
    (topic depth : String) :
    (∀ (st : LoopState) (p : Provider) (res : List SearchResult),
      p.available = true →
      readCache st.cache (now + st.elapsed) ttl ⟨q, p.name, n, topic, depth⟩ = none →
      p.run = Except.ok res → res ≠ [] →
      Event.cacheWrite ⟨q, p.name, n, topic, depth⟩ res ∈
        (providerStep now ttl q n topic depth st p).2 ∧
      (providerStep now ttl q n topic depth st p).1.cache ⟨q, p.name, n, topic, depth⟩ =
        some (some ⟨now + st.elapsed + p.duration, res⟩)) ∧
    (∀ (providers : List Provider) (cache : Cache) (timeout : ℤ),
      readCache cache now ttl ⟨q, "union", n, topic, depth⟩ = none →
      Event.cacheWrite ⟨q, "union", n, topic, depth⟩
          (search providers cache now ttl timeout q n topic depth).1 ∈
        (search providers cache now ttl timeout q n topic depth).2.1) := by
  constructor
  · intro st p res hav hrc hrun hres
    constructor
    · simp [providerStep, hav, hrc, hrun, hres]
    · simp [providerStep, hav, hrc, hrun, hres, writeCacheUpdate]
  · intro providers cache timeout hmiss
    simp [search, hmiss]

/-- Witness for `provider_cache_persistence` at a provider returning three
results. -/
theorem provider_cache_persistence_witness :
    Event.cacheWrite ⟨"q", "tavily", 2, "news", "basic"⟩ [resA, resADup, resB] ∈
      (providerStep 0 100 "q" 2 "news" "basic" ⟨emptyCache, [], [], 0⟩ provAB).2 ∧
    Event.cacheWrite ⟨"q", "union", 2, "news", "basic"⟩
        (search [provAB] emptyCache 0 100 25 "q" 2 "news" "basic").1 ∈
      (search [provAB] emptyCache 0 100 25 "q" 2 "news" "basic").2.1 :=
  ⟨((provider_cache_persistence 0 100 "q" 2 "news" "basic").1 ⟨emptyCache, [], [], 0⟩
      provAB [resA, resADup, resB] rfl rfl rfl (by decide)).1,
    (provider_cache_persistence 0 100 "q" 2 "news" "basic").2 [provAB] emptyCache 25 rfl⟩

end Theorems

end Invest
